import Mathlib

/-!
Verification of the tigris core against its specification.

The development shallowly embeds the key codec (`keys` package), the
primary-index metadata subspace (`server/metadata/primary_index.go`), the
secondary-index query planner and reader
(`server/services/v1/database/secondary_index_reader.go`) and the primary-key
generator (`keyGenerator`).  Pure Go functions become Lean functions; the
transactional substrate, the JSON primitives and the FoundationDB tuple layer
(which are not part of the sampled sources) are modelled from the
specification, as noted on each definition.
-/

namespace Tigris

/-- A byte, modelled as a natural number; well-formed byte lists have all
entries below 256. -/
abbrev Byte := Nat

/-- Error kinds of the `errors` package that the core uses. -/
inductive ErrCode where
  | invalidArgument
  | internalErr
  | notFound
  deriving DecidableEq, Repr

/-- An error value: a kind together with its message. -/
structure TigrisError where
  code : ErrCode
  msg : String
  deriving DecidableEq, Repr

/-- `errors.InvalidArgument`. -/
def invalidArgument (msg : String) : TigrisError := ⟨ErrCode.invalidArgument, msg⟩

/-- `errors.Internal`. -/
def internalErr (msg : String) : TigrisError := ⟨ErrCode.internalErr, msg⟩

/-- `errors.ErrNotFound`. -/
def errNotFound : TigrisError := ⟨ErrCode.notFound, "not found"⟩

namespace Keys

/-- Modelled from the spec: the scalar values the ordered tuple codec
supports (`int64`/`uint32` integers, strings, byte arrays, IEEE-754 bit
patterns, UUIDs and the null sentinel).  The FoundationDB tuple layer used by
`tableKey.SerializeToBytes` is not part of the sampled sources. -/
inductive ScalarValue where
  | null
  | int (i : Int)
  | str (s : List Byte)
  | bytes (b : List Byte)
  | float (bits : Nat)
  | uuid (b : List Byte)
  deriving DecidableEq, Repr

/-- Modelled from the spec: 0x00-escaping used for string and byte-array
payloads (a zero byte is written as `0x00 0xFF`). -/
def escapeBytes : List Byte → List Byte
  | [] => []
  | b :: rest => if b = 0 then 0 :: 255 :: escapeBytes rest else b :: escapeBytes rest

/-- Modelled from the spec: big-endian encoding of `n` into exactly `m`
bytes. -/
def encBE : Nat → Nat → List Byte
  | 0, _ => []
  | m + 1, n => encBE m (n / 256) ++ [n % 256]

/-- Modelled from the spec: big-endian decoding of a byte list. -/
def decBE (l : List Byte) : Nat :=
  l.foldl (fun acc b => acc * 256 + b) 0

/-- Modelled from the spec: the minimal number of bytes needed to represent
`n` in big-endian form (the length tag of the integer family). -/
def minBytes (n : Nat) : Nat :=
  if h : n = 0 then 0 else minBytes (n / 256) + 1
decreasing_by exact Nat.div_lt_self (Nat.pos_of_ne_zero h) (by omega)

/-- Modelled from the spec: the order-preserving transform applied to the
64-bit pattern of a float (sign bit set: flip all bits; otherwise flip the
sign bit). -/
def floatFlip (n : Nat) : Nat :=
  if 2 ^ 63 ≤ n then 2 ^ 64 - 1 - n else n + 2 ^ 63

/-- Modelled from the spec: inverse of `floatFlip`. -/
def floatUnflip (p : Nat) : Nat :=
  if 2 ^ 63 ≤ p then p - 2 ^ 63 else 2 ^ 64 - 1 - p

/-- Modelled from the spec: tuple-layer encoding of one integer: tag
`20 + m` with `m` big-endian payload bytes for non-negative values, tag
`20 - m` with an offset-complemented payload for negative values. -/
def packInt (i : Int) : List Byte :=
  if 0 ≤ i then
    let n := i.toNat
    let m := minBytes n
    (20 + m) :: encBE m n
  else
    let n := (-i).toNat
    let m := minBytes n
    (20 - m) :: encBE m (i + (256 ^ m - 1)).toNat

/-- Modelled from the spec: tuple-layer encoding of one element (one-byte
type tag followed by an order-preserving payload). -/
def packElem : ScalarValue → List Byte
  | ScalarValue.null => [0]
  | ScalarValue.int i => packInt i
  | ScalarValue.str s => 2 :: (escapeBytes s ++ [0])
  | ScalarValue.bytes b => 1 :: (escapeBytes b ++ [0])
  | ScalarValue.float bits => 33 :: encBE 8 (floatFlip bits)
  | ScalarValue.uuid b => 48 :: b

/-- Modelled from the spec: `tuple.Pack`, the concatenation of the packed
elements. -/
def packTuple : List ScalarValue → List Byte
  | [] => []
  | v :: rest => packElem v ++ packTuple rest

/-- Modelled from the spec: inverse of the 0x00-escaping; returns the
unescaped content and the remainder after the terminator. -/
def unescape : List Byte → Option (List Byte × List Byte)
  | [] => none
  | b :: rest =>
    if b = 0 then
      match rest with
      | 255 :: rest2 =>
        match unescape rest2 with
        | some (c, r) => some (0 :: c, r)
        | none => none
      | _ => some ([], rest)
    else
      match unescape rest with
      | some (c, r) => some (b :: c, r)
      | none => none

/-- Modelled from the spec: decode a single tuple element from the front of
a byte list, returning the value and the remainder. -/
def unpackOne : List Byte → Option (ScalarValue × List Byte)
  | [] => none
  | t :: rest =>
    if t = 0 then some (ScalarValue.null, rest)
    else if t = 1 then
      match unescape rest with
      | some (c, r) => some (ScalarValue.bytes c, r)
      | none => none
    else if t = 2 then
      match unescape rest with
      | some (c, r) => some (ScalarValue.str c, r)
      | none => none
    else if t = 33 then
      if 8 ≤ rest.length then
        some (ScalarValue.float (floatUnflip (decBE (rest.take 8))), rest.drop 8)
      else none
    else if t = 48 then
      if 16 ≤ rest.length then some (ScalarValue.uuid (rest.take 16), rest.drop 16)
      else none
    else if 12 ≤ t ∧ t ≤ 28 then
      let m := if 20 ≤ t then t - 20 else 20 - t
      if m ≤ rest.length then
        some (ScalarValue.int
          (if 20 ≤ t then (decBE (rest.take m) : Int)
           else (decBE (rest.take m) : Int) - (256 ^ m - 1)), rest.drop m)
      else none
    else none

/-- Modelled from the spec: `tuple.Unpack` with explicit fuel (any fuel at
least the input length decodes the whole tuple). -/
def unpackTupleFuel : Nat → List Byte → Option (List ScalarValue)
  | _, [] => some []
  | 0, _ :: _ => none
  | fuel + 1, l@(_ :: _) =>
    match unpackOne l with
    | some (v, r) =>
      match unpackTupleFuel fuel r with
      | some vs => some (v :: vs)
      | none => none
    | none => none

/-- Modelled from the spec: `tuple.Unpack`. -/
def unpackTuple (l : List Byte) : Option (List ScalarValue) :=
  unpackTupleFuel l.length l

/-- The parts of a key that lie within the supported scalar type set:
integers fitting the 8-byte families, byte-valued lists, 16-byte UUIDs and
64-bit float patterns. -/
def supportedPart : ScalarValue → Prop
  | ScalarValue.null => True
  | ScalarValue.int i => -(256 ^ 8 : Int) < i ∧ i < (256 ^ 8 : Int)
  | ScalarValue.str s => ∀ b ∈ s, b < 256
  | ScalarValue.bytes b => ∀ x ∈ b, x < 256
  | ScalarValue.float bits => bits < 2 ^ 64
  | ScalarValue.uuid b => b.length = 16 ∧ ∀ x ∈ b, x < 256

instance (v : ScalarValue) : Decidable (supportedPart v) := by
  cases v <;> simp only [supportedPart] <;> infer_instance

/-- `tableKey` of the `keys` package: a table prefix together with the index
parts. -/
structure TableKey where
  table : List Byte
  indexParts : List ScalarValue
  deriving DecidableEq, Repr

/-- `keys.NewKey`. -/
def NewKey (table : List Byte) (indexParts : List ScalarValue) : TableKey :=
  ⟨table, indexParts⟩

/-- `tableKey.SerializeToBytes`: the table bytes verbatim when there are no
index parts, otherwise the table prefix followed by the tuple-packed parts
(`subspace.FromBytes(table).Pack`). -/
def SerializeToBytes (p : TableKey) : List Byte :=
  if p.indexParts = [] then p.table
  else p.table ++ packTuple p.indexParts

/-- `keys.FromBinary`: strip the exact table prefix and decode the tuple
tail (`subspace.Unpack`). -/
def FromBinary (table : List Byte) (fdbKey : List Byte) : Option TableKey :=
  if fdbKey.take table.length = table then
    match unpackTuple (fdbKey.drop table.length) with
    | some parts => some ⟨table, parts⟩
    | none => none
  else none

end Keys

namespace Metadata

open Keys

/-- `internal.TableData`, restricted to the fields the metadata path reads:
the value version and the raw payload bytes. -/
structure TableData where
  ver : Int
  rawData : List Byte
  deriving DecidableEq, Repr

/-- `PrimaryIndexMetadata` of `server/metadata/primary_index.go`. -/
structure PrimaryIndexMetadata where
  ID : Nat
  Name : String
  deriving DecidableEq, Repr

/-- `indexMetaValueVersion`. -/
def indexMetaValueVersion : Int := 1

/-- Modelled from the spec: `UInt32ToByte`, the big-endian 4-byte encoding
of a `uint32` (the helper lives outside the sampled sources). -/
def UInt32ToByte (n : Nat) : List Byte := encBE 4 n

/-- Modelled from the spec: `ByteToUInt32`, the big-endian `uint32`
interpretation of the (4-byte) raw data. -/
def ByteToUInt32 (b : List Byte) : Nat := decBE (b.take 4)

/-- Modelled from the spec: the `keyEnd` terminator marking active
records. -/
def keyEnd : List Byte := [0xFE]

/-- Modelled from the spec: the `keyDroppedEnd` terminator marking
soft-deleted records. -/
def keyDroppedEnd : List Byte := [0xFD]

/-- Modelled from the spec: the single-byte `indexKey` kind tag (its
concrete value is immaterial to the claims). -/
def indexKeyTag : List Byte := [2]

/-- The subspace coordinates of a `PrimaryIndexSubspace`
(`metadataSubspace` fields). -/
structure PrimaryIndexSubspace where
  SubspaceName : List Byte
  KeyVersion : List Byte
  deriving Repr

/-- A JSON unmarshaller for `PrimaryIndexMetadata`; stands for
`jsoniter.Unmarshal`, which is external to the repository. -/
abbrev Unmarshal := List Byte → Option PrimaryIndexMetadata

/-- `PrimaryIndexSubspace.getKey`. -/
def PrimaryIndexSubspace.getKey (c : PrimaryIndexSubspace) (nsID dbID collID : Nat)
    (name : String) : TableKey :=
  if name = "" then
    NewKey c.SubspaceName
      [ScalarValue.bytes c.KeyVersion, ScalarValue.bytes (UInt32ToByte nsID),
       ScalarValue.bytes (UInt32ToByte dbID), ScalarValue.bytes (UInt32ToByte collID),
       ScalarValue.bytes indexKeyTag]
  else
    NewKey c.SubspaceName
      [ScalarValue.bytes c.KeyVersion, ScalarValue.bytes (UInt32ToByte nsID),
       ScalarValue.bytes (UInt32ToByte dbID), ScalarValue.bytes (UInt32ToByte collID),
       ScalarValue.bytes indexKeyTag, ScalarValue.str (name.data.map Char.toNat),
       ScalarValue.bytes keyEnd]

/-- `PrimaryIndexSubspace.decodeMetadata`: version 0 payloads decode as the
legacy big-endian `uint32` id, later versions JSON-decode; a JSON failure is
an Internal error. -/
def PrimaryIndexSubspace.decodeMetadata (u : Unmarshal) (payload : TableData) :
    Except TigrisError PrimaryIndexMetadata :=
  if payload.ver = 0 then
    Except.ok { ID := ByteToUInt32 payload.rawData, Name := "" }
  else
    match u payload.rawData with
    | some metadata => Except.ok metadata
    | none => Except.error (internalErr "failed to unmarshal collection metadata")

/-- `PrimaryIndexSubspace.validateArgs`.  The `metadata` argument mirrors the
Go `**PrimaryIndexMetadata`: `none` is a nil outer pointer (ops without a
payload), `some none` a nil payload pointer. -/
def PrimaryIndexSubspace.validateArgs (nsID dbID collID : Nat) (name : String)
    (metadata : Option (Option PrimaryIndexMetadata)) : Option TigrisError :=
  if nsID = 0 ∨ dbID = 0 ∨ collID = 0 then some (invalidArgument "invalid id")
  else if name = "" then some (invalidArgument "empty index name")
  else
    match metadata with
    | some none => some (invalidArgument "invalid nil payload")
    | _ => none

/-- One substrate access performed by a metadata operation, recorded so the
theorems can state that validation failures perform none. -/
inductive SubstrateOp where
  | insertOp (key : List Byte)
  | readOp (key : List Byte)
  | replaceOp (key : List Byte)
  | deleteOp (key : List Byte)
  deriving DecidableEq, Repr

/-- The substrate row content, as a snapshot function from serialized keys
to stored payloads. -/
abbrev SubstrateStore := List Byte → Option TableData

/-- Modelled from the spec: `metadataSubspace.insertMetadata` returns the
validation error, if any, before touching the substrate. -/
def insertMetadata (validationErr : Option TigrisError) (key : TableKey) :
    Except TigrisError Unit × List SubstrateOp :=
  match validationErr with
  | some e => (Except.error e, [])
  | none => (Except.ok (), [SubstrateOp.insertOp (SerializeToBytes key)])

/-- Modelled from the spec: `metadataSubspace.getPayload` returns the
validation error, if any, before touching the substrate; otherwise it point
reads the key. -/
def getPayload (validationErr : Option TigrisError) (store : SubstrateStore)
    (key : TableKey) : Except TigrisError (Option TableData) × List SubstrateOp :=
  match validationErr with
  | some e => (Except.error e, [])
  | none =>
    (Except.ok (store (SerializeToBytes key)), [SubstrateOp.readOp (SerializeToBytes key)])

/-- Modelled from the spec: `metadataSubspace.updateMetadata` returns the
validation error, if any, before touching the substrate. -/
def updateMetadata (validationErr : Option TigrisError) (key : TableKey) :
    Except TigrisError Unit × List SubstrateOp :=
  match validationErr with
  | some e => (Except.error e, [])
  | none => (Except.ok (), [SubstrateOp.replaceOp (SerializeToBytes key)])

/-- Modelled from the spec: `metadataSubspace.deleteMetadata` returns the
validation error, if any, before touching the substrate. -/
def deleteMetadata (validationErr : Option TigrisError) (key : TableKey) :
    Except TigrisError Unit × List SubstrateOp :=
  match validationErr with
  | some e => (Except.error e, [])
  | none => (Except.ok (), [SubstrateOp.deleteOp (SerializeToBytes key)])

/-- Modelled from the spec: `metadataSubspace.softDeleteMetadata` rewrites
the record under the dropped key; the validation error, if any, is returned
before touching the substrate. -/
def softDeleteMetadata (validationErr : Option TigrisError) (oldKey newKey : TableKey) :
    Except TigrisError Unit × List SubstrateOp :=
  match validationErr with
  | some e => (Except.error e, [])
  | none =>
    (Except.ok (),
     [SubstrateOp.readOp (SerializeToBytes oldKey),
      SubstrateOp.insertOp (SerializeToBytes newKey),
      SubstrateOp.deleteOp (SerializeToBytes oldKey)])

/-- `PrimaryIndexSubspace.insert`. -/
def PrimaryIndexSubspace.insert (c : PrimaryIndexSubspace) (nsID dbID collID : Nat)
    (name : String) (metadata : Option PrimaryIndexMetadata) :
    Except TigrisError Unit × List SubstrateOp :=
  insertMetadata
    (PrimaryIndexSubspace.validateArgs nsID dbID collID name (some metadata))
    (c.getKey nsID dbID collID name)

/-- `PrimaryIndexSubspace.Get`. -/
def PrimaryIndexSubspace.Get (c : PrimaryIndexSubspace) (u : Unmarshal)
    (store : SubstrateStore) (nsID dbID collID : Nat) (name : String) :
    Except TigrisError PrimaryIndexMetadata × List SubstrateOp :=
  match getPayload (PrimaryIndexSubspace.validateArgs nsID dbID collID name none)
      store (c.getKey nsID dbID collID name) with
  | (Except.error e, tr) => (Except.error e, tr)
  | (Except.ok none, tr) => (Except.error errNotFound, tr)
  | (Except.ok (some payload), tr) =>
    (PrimaryIndexSubspace.decodeMetadata u payload, tr)

/-- `PrimaryIndexSubspace.Update`. -/
def PrimaryIndexSubspace.Update (c : PrimaryIndexSubspace) (nsID dbID collID : Nat)
    (name : String) (metadata : Option PrimaryIndexMetadata) :
    Except TigrisError Unit × List SubstrateOp :=
  updateMetadata
    (PrimaryIndexSubspace.validateArgs nsID dbID collID name (some metadata))
    (c.getKey nsID dbID collID name)

/-- `PrimaryIndexSubspace.delete`. -/
def PrimaryIndexSubspace.delete (c : PrimaryIndexSubspace) (nsID dbID collID : Nat)
    (name : String) : Except TigrisError Unit × List SubstrateOp :=
  deleteMetadata
    (PrimaryIndexSubspace.validateArgs nsID dbID collID name none)
    (c.getKey nsID dbID collID name)

/-- `PrimaryIndexSubspace.softDelete`. -/
def PrimaryIndexSubspace.softDelete (c : PrimaryIndexSubspace) (nsID dbID collID : Nat)
    (name : String) : Except TigrisError Unit × List SubstrateOp :=
  softDeleteMetadata
    (PrimaryIndexSubspace.validateArgs nsID dbID collID name none)
    (c.getKey nsID dbID collID name)
    (NewKey c.SubspaceName
      [ScalarValue.bytes c.KeyVersion, ScalarValue.bytes (UInt32ToByte nsID),
       ScalarValue.bytes (UInt32ToByte dbID), ScalarValue.bytes (UInt32ToByte collID),
       ScalarValue.bytes indexKeyTag, ScalarValue.str (name.data.map Char.toNat),
       ScalarValue.bytes keyDroppedEnd])

/-- One row delivered by the `listMetadata` scan: the dropped-terminator
flag, the parsed name and the stored payload. -/
structure ListedRow where
  dropped : Bool
  name : String
  data : TableData
  deriving DecidableEq, Repr

/-- Lookup in an association-list map. -/
def lookupName {α : Type} (m : List (String × α)) (k : String) : Option α :=
  (m.find? (fun p => p.1 = k)).map (fun p => p.2)

/-- Go map assignment `m[k] = v` on an association-list map. -/
def upsert {α : Type} (m : List (String × α)) (k : String) (v : α) : List (String × α) :=
  if m.any (fun p => p.1 = k) then
    m.map (fun p => if p.1 = k then (k, v) else p)
  else m ++ [(k, v)]

/-- The fold performed by the visit closure of `PrimaryIndexSubspace.list`:
each row is decoded and recorded in the dropped or the active map. -/
def foldRows (u : Unmarshal) :
    List ListedRow → List (String × PrimaryIndexMetadata) × List (String × Nat) →
    Except TigrisError (List (String × PrimaryIndexMetadata) × List (String × Nat))
  | [], acc => Except.ok acc
  | row :: rest, acc =>
    match PrimaryIndexSubspace.decodeMetadata u row.data with
    | Except.error e => Except.error e
    | Except.ok m =>
      if row.dropped then foldRows u rest (acc.1, upsert acc.2 row.name m.ID)
      else foldRows u rest (upsert acc.1 row.name m, acc.2)

/-- The retrogression predicate checked on one dropped entry: the same name
is active and the dropped id is not smaller than the active id. -/
def retroViolation (indexes : List (String × PrimaryIndexMetadata))
    (p : String × Nat) : Bool :=
  match lookupName indexes p.1 with
  | some created => created.ID ≤ p.2
  | none => false

/-- `PrimaryIndexSubspace.list`, with the `listMetadata` scan abstracted as
the list of visited rows: fold the rows into the active and dropped maps,
fail with an Internal error on a retrogression, otherwise return the active
map. -/
def PrimaryIndexSubspace.list (u : Unmarshal) (rows : List ListedRow) :
    Except TigrisError (List (String × PrimaryIndexMetadata)) :=
  match foldRows u rows ([], []) with
  | Except.error e => Except.error e
  | Except.ok (indexes, droppedIndexes) =>
    match droppedIndexes.find? (retroViolation indexes) with
    | some _ => Except.error (internalErr "retrogression found in indexes assigned value")
    | none => Except.ok indexes

end Metadata

namespace Database

open Keys

/-- `schema.FieldType`. -/
inductive FieldType where
  | unknownType
  | boolType
  | int32Type
  | int64Type
  | doubleType
  | stringType
  | byteType
  | uuidType
  | dateTimeType
  | arrayType
  | objectType
  deriving DecidableEq, Repr

/-- `filter.QueryType` (`EQUAL`, `RANGE`, `FULLRANGE`). -/
inductive QueryType where
  | EQUAL
  | RANGE
  | FULLRANGE
  deriving DecidableEq, Repr

/-- `filter.QueryPlan`: the chosen query type, its keys, the data type of
the driving literal and a selectivity rank (lower means tried first). -/
structure QueryPlan where
  queryType : QueryType
  keys : List TableKey
  dataType : FieldType
  selectivity : Nat
  deriving DecidableEq, Repr

/-- `indexedDataType` of `secondary_index_reader.go`: every data type except
`Byte`, `Unknown` and `Array` is indexable. -/
def indexedDataType (queryPlan : QueryPlan) : Bool :=
  match queryPlan.dataType with
  | FieldType.byteType => false
  | FieldType.unknownType => false
  | FieldType.arrayType => false
  | _ => true

/-- The comparison operator of a leaf filter. -/
inductive FilterOp where
  | eq
  | gt
  | gte
  | lt
  | lte
  deriving DecidableEq, Repr

/-- A leaf filter: an equality or comparison of one field against a typed
literal. -/
structure QueryFilter where
  field : String
  op : FilterOp
  litType : FieldType
  lit : ScalarValue
  deriving DecidableEq, Repr

/-- `schema.QueryableField`, restricted to the data plan selection reads:
the field name and its declared type (`GetActiveIndexedFields` returns only
active indexed fields). -/
structure QueryableField where
  name : String
  dataType : FieldType
  deriving DecidableEq, Repr

/-- `schema.DefaultCollection`, restricted to what the planner and reader
read. -/
structure DefaultCollection where
  activeIndexedFields : List QueryableField
  encodedTableIndexName : List Byte
  encodedName : List Byte
  secondaryIndexKeyword : List Byte
  deriving Repr

/-- Modelled from the spec: `value.ToSecondaryOrder`, the small integer tag
making heterogeneous-type ordering deterministic. -/
def toSecondaryOrder : FieldType → Nat
  | FieldType.unknownType => 0
  | FieldType.boolType => 1
  | FieldType.int32Type => 2
  | FieldType.int64Type => 2
  | FieldType.doubleType => 2
  | FieldType.stringType => 3
  | FieldType.byteType => 4
  | FieldType.uuidType => 5
  | FieldType.dateTimeType => 6
  | FieldType.arrayType => 7
  | FieldType.objectType => 8

/-- `newKeyWithPrimaryKey` as invoked by `BuildSecondaryIndexKeys`: the
index table prefix with parts `[keyword, "kvs", fieldName, typeOrder,
literal]`. -/
def secondaryIndexKey (coll : DefaultCollection) (fieldName : String)
    (litType : FieldType) (lit : ScalarValue) : TableKey :=
  NewKey coll.encodedTableIndexName
    [ScalarValue.bytes coll.secondaryIndexKeyword,
     ScalarValue.str ([107, 118, 115]),
     ScalarValue.str (fieldName.data.map Char.toNat),
     ScalarValue.int (toSecondaryOrder litType),
     lit]

/-- Remove duplicate literals, keeping first occurrences. -/
def dedupLits : List ScalarValue → List ScalarValue
  | [] => []
  | v :: rest => v :: (dedupLits rest).filter (fun w => ¬ w = v)

/-- Modelled from the spec: the equality builder's candidate for one indexed
field — an `EQUAL` plan with one key per distinct equality literal, or
nothing when the field has no equality filter. -/
def eqCandidate (coll : DefaultCollection) (queryFilters : List QueryFilter)
    (f : QueryableField) : Option QueryPlan :=
  match queryFilters.filter (fun flt => flt.op = FilterOp.eq ∧ flt.field = f.name) with
  | [] => none
  | flt :: rest =>
    some
      { queryType := QueryType.EQUAL,
        keys := (dedupLits ((flt :: rest).map (fun x => x.lit))).map
          (secondaryIndexKey coll f.name flt.litType),
        dataType := flt.litType,
        selectivity := 0 }

/-- Modelled from the spec: `SecondaryKeyEqBuilder.Build` — one candidate
plan per indexed field that has an equality filter, an error when there is
none. -/
def eqBuilderBuild (coll : DefaultCollection) (queryFilters : List QueryFilter)
    (fields : List QueryableField) : Except TigrisError (List QueryPlan) :=
  match fields.filterMap (eqCandidate coll queryFilters) with
  | [] => Except.error (invalidArgument "no equality plans")
  | p :: rest => Except.ok (p :: rest)

/-- Modelled from the spec: the range builder's candidate for one indexed
field — contiguous comparisons composed into a `[lower, upper)` range, with
the missing side filled by the field prefix's min or max, `FULLRANGE` when
no bound narrows the field. -/
def rangeCandidate (coll : DefaultCollection) (queryFilters : List QueryFilter)
    (f : QueryableField) : Option QueryPlan :=
  match queryFilters.filter
      (fun flt => ¬ flt.op = FilterOp.eq ∧ flt.field = f.name) with
  | [] => none
  | flt :: rest =>
    let cmps := flt :: rest
    let hasLower := cmps.any (fun c => c.op = FilterOp.gt ∨ c.op = FilterOp.gte)
    let hasUpper := cmps.any (fun c => c.op = FilterOp.lt ∨ c.op = FilterOp.lte)
    let lowerKey :=
      match cmps.find? (fun c => c.op = FilterOp.gt ∨ c.op = FilterOp.gte) with
      | some c => secondaryIndexKey coll f.name c.litType c.lit
      | none => secondaryIndexKey coll f.name flt.litType ScalarValue.null
    let upperKey :=
      match cmps.find? (fun c => c.op = FilterOp.lt ∨ c.op = FilterOp.lte) with
      | some c => secondaryIndexKey coll f.name c.litType c.lit
      | none => secondaryIndexKey coll f.name flt.litType (ScalarValue.bytes [255])
    some
      { queryType := if hasLower ∨ hasUpper then QueryType.RANGE else QueryType.FULLRANGE,
        keys := [lowerKey, upperKey],
        dataType := flt.litType,
        selectivity := if hasLower ∧ hasUpper then 1 else 2 }

/-- Modelled from the spec: `RangeKeyBuilder.Build` — all viable range
plans. -/
def rangeBuilderBuild (coll : DefaultCollection) (queryFilters : List QueryFilter)
    (fields : List QueryableField) : List QueryPlan :=
  fields.filterMap (rangeCandidate coll queryFilters)

/-- Insert a plan into a list sorted by ascending selectivity rank. -/
def insertPlan (p : QueryPlan) : List QueryPlan → List QueryPlan
  | [] => [p]
  | q :: rest =>
    if p.selectivity ≤ q.selectivity then p :: q :: rest else q :: insertPlan p rest

/-- Modelled from the spec: `filter.SortQueryPlans`, ordering plans by the
selectivity heuristic (tighter bounds first). -/
def sortPlans : List QueryPlan → List QueryPlan
  | [] => []
  | p :: rest => insertPlan p (sortPlans rest)

/-- `BuildSecondaryIndexKeys`: reject empty filters and collections without
active indexed fields, prefer the first indexable equality plan, fall back
to the sorted range plans, and fail with invalid-argument when nothing
indexable remains. -/
def BuildSecondaryIndexKeys (coll : DefaultCollection)
    (queryFilters : List QueryFilter) : Except TigrisError QueryPlan :=
  if queryFilters = [] then
    Except.error (invalidArgument "Cannot index with an empty filter")
  else if coll.activeIndexedFields = [] then
    Except.error (invalidArgument "No indexable fields")
  else
    match
      (match eqBuilderBuild coll queryFilters coll.activeIndexedFields with
       | Except.ok eqPlans => eqPlans.find? indexedDataType
       | Except.error _ => none) with
    | some plan => Except.ok plan
    | none =>
      match rangeBuilderBuild coll queryFilters coll.activeIndexedFields with
      | [] => Except.error (invalidArgument "Could not find a query range")
      | p :: rest =>
        match (sortPlans (p :: rest)).find? indexedDataType with
        | some plan => Except.ok plan
        | none => Except.error (invalidArgument "Could not find a useuable query plan")

/-- `PrimaryKeyPos` of `secondary_index_reader.go`. -/
def PrimaryKeyPos : Nat := 6

/-- A key-value row as surfaced by the iterators (`kv.KeyValue` restricted
to the fields the reader touches). -/
structure KeyValue where
  key : List Byte
  data : List Byte
  deriving DecidableEq, Repr

/-- The state of a `SecondaryIndexReaderImpl`: the remaining secondary-index
hits of the underlying iterator, its pending interruption, and the latched
error. -/
structure ReaderState where
  hits : List KeyValue
  interrupted : Option TigrisError
  err : Option TigrisError
  deriving DecidableEq, Repr

/-- The transaction's primary-row point read (`tx.Read` followed by one
`docIter.Next`), as a snapshot function: an error, an absent row or the
row. -/
abbrev PrimaryStore := List Byte → Except TigrisError (Option KeyValue)

/-- `SecondaryIndexReaderImpl.Next`: latched errors and interruptions stop
iteration; otherwise the next secondary hit is decoded, its trailing parts
from `PrimaryKeyPos` form the primary key, and the primary row is point
read.  The call returns the emitted row, if any, and the successor state. -/
def ReaderNext (coll : DefaultCollection) (store : PrimaryStore) (s : ReaderState) :
    Bool × Option KeyValue × ReaderState :=
  if s.err.isSome then (false, none, s)
  else
    match s.interrupted with
    | some e => (false, none, { s with err := some e })
    | none =>
      match s.hits with
      | [] => (false, none, s)
      | indexRow :: rest =>
        match FromBinary coll.encodedTableIndexName indexRow.key with
        | none =>
          (false, none,
           { s with hits := rest, err := some (internalErr "key unpack failed") })
        | some indexKey =>
          let pks := indexKey.indexParts.drop PrimaryKeyPos
          let pkIndexParts := NewKey coll.encodedName pks
          match store (SerializeToBytes pkIndexParts) with
          | Except.error e => (false, none, { s with hits := rest, err := some e })
          | Except.ok (some keyValue) => (true, some keyValue, { s with hits := rest })
          | Except.ok none => (false, none, { s with hits := rest })

/-- `SecondaryIndexReaderImpl.Interrupted`. -/
def ReaderInterrupted (s : ReaderState) : Option TigrisError := s.err

/-- The standard consumption loop `for it.Next(&row)`, collecting the
emitted rows; the fuel only bounds the recursion. -/
def readAllFuel (coll : DefaultCollection) (store : PrimaryStore) :
    Nat → ReaderState → List KeyValue
  | 0, _ => []
  | fuel + 1, s =>
    match ReaderNext coll store s with
    | (true, some row, s2) => row :: readAllFuel coll store fuel s2
    | _ => []

/-- The rows emitted by a full consumption loop over the reader. -/
def readAll (coll : DefaultCollection) (store : PrimaryStore) (s : ReaderState) :
    List KeyValue :=
  readAllFuel coll store (s.hits.length + 1) s

/-- The claim's reading of one secondary hit (spec wording, for comparison
with the code): decode the hit, point read its primary row, and emit the
primary row when it exists. -/
def hitResult (coll : DefaultCollection) (store : PrimaryStore) (h : KeyValue) :
    Option KeyValue :=
  match FromBinary coll.encodedTableIndexName h.key with
  | none => none
  | some indexKey =>
    match store (SerializeToBytes
        (NewKey coll.encodedName (indexKey.indexParts.drop PrimaryKeyPos))) with
    | Except.ok (some keyValue) => some keyValue
    | _ => none

/-- The rows the claim expects a full iteration to emit (spec wording, for
comparison with the code): exactly the rows whose primary documents
exist. -/
def existingPrimaryRows (coll : DefaultCollection) (store : PrimaryStore)
    (hits : List KeyValue) : List KeyValue :=
  hits.filterMap (hitResult coll store)

end Database

namespace KeyGen

open Keys Database

/-- ASCII bytes of a Lean string, used to embed the Go string literals of
the generator. -/
def strBytes (s : String) : List Byte := s.data.map Char.toNat

/-- `zeroIntStringSlice`. -/
def zeroIntStringSlice : List Byte := strBytes "0"

/-- `zeroUUIDStringSlice` (`uuid.NullUUID.String()`). -/
def zeroUUIDStringSlice : List Byte := strBytes "00000000-0000-0000-0000-000000000000"

/-- `zeroTimeStringSlice` (`time.Time{}.Format(time.RFC3339Nano)`). -/
def zeroTimeStringSlice : List Byte := strBytes "0001-01-01T00:00:00Z"

/-- `isNull` of the key generator: the value is the zero sentinel of its
type. -/
def isNull (tp : FieldType) (val : List Byte) : Bool :=
  match tp with
  | FieldType.int32Type => val = zeroIntStringSlice
  | FieldType.int64Type => val = zeroIntStringSlice
  | FieldType.uuidType => val = zeroUUIDStringSlice
  | FieldType.dateTimeType => val = zeroTimeStringSlice
  | FieldType.stringType => val.length = 0
  | FieldType.byteType => val.length = 0
  | _ => false

/-- `keyGenerator.getJsonQuotedValue`. -/
def getJsonQuotedValue (fieldType : FieldType) (jsonVal : List Byte) : List Byte :=
  match fieldType with
  | FieldType.stringType => strBytes "\"" ++ jsonVal ++ strBytes "\""
  | FieldType.uuidType => strBytes "\"" ++ jsonVal ++ strBytes "\""
  | FieldType.byteType => strBytes "\"" ++ jsonVal ++ strBytes "\""
  | FieldType.dateTimeType => strBytes "\"" ++ jsonVal ++ strBytes "\""
  | _ => jsonVal

/-- One field of a `schema.Index`, restricted to what the generator reads. -/
structure SchemaField where
  fieldName : String
  type : FieldType
  autoGenerated : Bool
  deriving DecidableEq, Repr

/-- The `jsonparser` value kinds the generator distinguishes. -/
inductive JsonKind where
  | notExist
  | nullKind
  | otherKind
  deriving DecidableEq, Repr

/-- The mutable byte buffers of the Go heap, addressed by allocation order;
`size` in `GenState` tracks the allocated extent. -/
abbrev Heap := Nat → List Byte

/-- The state of a `keyGenerator` run: the heap of byte buffers, the number
of allocated buffers, the address of `k.document`, the accumulated
`keysForResp` and the `forceInsert` hint. -/
structure GenState where
  heap : Heap
  size : Nat
  docAddr : Nat
  keysForResp : List Byte
  forceInsert : Bool

/-- The external primitives of the generator: `jsonparser.Get`,
`jsonparser.Set` (its pure result; the in-place rewrite is modelled in
`setKeyInDoc`), the per-step generated value (`keyGenerator.get`, covering
UUIDs, timestamps and the atomic counter) and `value.NewValue`.  All are
universally quantified in the theorems, so no behaviour is assumed of
them. -/
structure GenEnv where
  jsonGet : List Byte → String → List Byte × JsonKind × Bool
  jsonSet : List Byte → List Byte → String → Except TigrisError (List Byte)
  genVal : Nat → SchemaField → Except TigrisError (List Byte × ScalarValue)
  newValue : FieldType → List Byte → Except TigrisError ScalarValue

/-- `keyGenerator.setKeyInDoc`: copy the document into a freshly allocated
buffer, point `k.document` at the copy, and let `jsonparser.Set` rewrite
that copy (modelled as an in-place write at the fresh address). -/
def setKeyInDoc (env : GenEnv) (st : GenState) (field : SchemaField)
    (jsonVal : List Byte) : Except TigrisError Unit × GenState :=
  let quoted := getJsonQuotedValue field.type jsonVal
  let tmpAddr := st.size
  let copied := st.heap st.docAddr
  let heap1 : Heap := fun j => if j = tmpAddr then copied else st.heap j
  match env.jsonSet copied quoted field.fieldName with
  | Except.error e =>
    (Except.error e, { st with heap := heap1, size := st.size + 1, docAddr := tmpAddr })
  | Except.ok res =>
    (Except.ok (),
     { st with heap := fun j => if j = tmpAddr then res else heap1 j,
               size := st.size + 1, docAddr := tmpAddr })

/-- `keyGenerator.addKeyToResp`. -/
def addKeyToResp (st : GenState) (field : SchemaField) (jsonVal : List Byte) :
    GenState :=
  let quoted := getJsonQuotedValue field.type jsonVal
  let kv := strBytes "\"" ++ strBytes field.fieldName ++ strBytes "\":" ++ quoted
  { st with keysForResp :=
      if st.keysForResp.length = 0 then kv
      else st.keysForResp ++ strBytes "," ++ kv }

/-- The per-field loop of `keyGenerator.generate`: look the field up in the
document, decide auto-generation, generate or parse the value, patch the
document, extend the response keys and accumulate the index part.  Returns
the accumulated parts (or the first error) with the final state. -/
def generateLoop (env : GenEnv) :
    List SchemaField → Nat → GenState → List ScalarValue →
    Except TigrisError (List ScalarValue) × GenState
  | [], _, st, acc => (Except.ok acc, st)
  | field :: rest, step, st, acc =>
    let doc := st.heap st.docAddr
    let got := env.jsonGet doc field.fieldName
    let jsonVal0 := got.1
    let dtp := got.2.1
    let jerr := got.2.2
    let autoGenerate := field.autoGenerated &&
      (dtp = JsonKind.notExist ||
        (!jerr && (isNull field.type jsonVal0 || dtp = JsonKind.nullKind)))
    if !autoGenerate && jerr then
      (Except.error (invalidArgument "missing index key column(s)"), st)
    else if autoGenerate then
      match env.genVal step field with
      | Except.error e => (Except.error e, st)
      | Except.ok (jsonVal, v) =>
        match setKeyInDoc env st field jsonVal with
        | (Except.error e, st1) => (Except.error e, st1)
        | (Except.ok _, st1) =>
          let st2 :=
            if field.type = FieldType.int64Type ∨ field.type = FieldType.dateTimeType
            then { st1 with forceInsert := true } else st1
          generateLoop env rest (step + 1) (addKeyToResp st2 field jsonVal) (acc ++ [v])
    else
      match env.newValue field.type jsonVal0 with
      | Except.error e => (Except.error e, st)
      | Except.ok v =>
        generateLoop env rest (step + 1) (addKeyToResp st field jsonVal0) (acc ++ [v])

/-- `keyGenerator.generate`: run the per-field loop and encode the key from
the accumulated parts (`Encoder.EncodeKey`, modelled as key construction
over the table). -/
def generate (env : GenEnv) (index : List SchemaField) (table : List Byte)
    (st : GenState) : Except TigrisError TableKey × GenState :=
  match generateLoop env index 0 st [] with
  | (Except.ok parts, st1) => (Except.ok (NewKey table parts), st1)
  | (Except.error e, st1) => (Except.error e, st1)

/-- `newKeyGenerator`: the generator starts with `k.document` pointing at
the caller's buffer, an empty response accumulator and `forceInsert`
unset. -/
def newKeyGenerator (heap : Heap) (size : Nat) (docAddr : Nat) : GenState :=
  { heap := heap, size := size, docAddr := docAddr,
    keysForResp := [], forceInsert := false }

end KeyGen

/-! Lemmas and claim theorems. -/

namespace Keys

theorem decBE_append (l : List Byte) (b : Byte) :
    decBE (l ++ [b]) = decBE l * 256 + b := by
  simp [decBE, List.foldl_append]

theorem encBE_length (m : Nat) : ∀ n, (encBE m n).length = m := by
  induction m with
  | zero => intro n; rfl
  | succ m ih => intro n; simp [encBE, ih]

theorem decBE_encBE (m : Nat) : ∀ n, n < 256 ^ m → decBE (encBE m n) = n := by
  induction m with
  | zero =>
    intro n h
    have : n = 0 := by simpa [Nat.pow_zero] using h
    simp [this, encBE, decBE]
  | succ m ih =>
    intro n h
    have hdiv : n / 256 < 256 ^ m := by
      rw [Nat.div_lt_iff_lt_mul (by omega)]
      calc n < 256 ^ (m + 1) := h
        _ = 256 ^ m * 256 := by ring
    rw [encBE, decBE_append, ih (n / 256) hdiv]
    omega

theorem minBytes_le_iff : ∀ n m : Nat, minBytes n ≤ m ↔ n < 256 ^ m := by
  intro n
  induction n using Nat.strong_induction_on with
  | _ n ih =>
    intro m
    by_cases h0 : n = 0
    · subst h0
      simp [minBytes, Nat.pos_pow_of_pos]
    · rw [minBytes, dif_neg h0]
      cases m with
      | zero =>
        simp only [Nat.pow_zero]
        omega
      | succ m =>
        have hlt : n / 256 < n := Nat.div_lt_self (Nat.pos_of_ne_zero h0) (by omega)
        rw [Nat.succ_le_succ_iff, ih (n / 256) hlt m,
          Nat.div_lt_iff_lt_mul (by omega : 0 < 256)]
        constructor
        · intro h
          calc n < 256 ^ m * 256 := h
            _ = 256 ^ (m + 1) := by ring
        · intro h
          calc n < 256 ^ (m + 1) := h
            _ = 256 ^ m * 256 := by ring

theorem lt_pow_minBytes (n : Nat) : n < 256 ^ minBytes n :=
  (minBytes_le_iff n (minBytes n)).mp (Nat.le_refl _)

theorem minBytes_eq_zero_iff (n : Nat) : minBytes n = 0 ↔ n = 0 := by
  constructor
  · intro h
    have := lt_pow_minBytes n
    rw [h] at this
    simpa using this
  · intro h
    simp [h, minBytes]

theorem floatFlip_lt (n : Nat) (h : n < 2 ^ 64) : floatFlip n < 2 ^ 64 := by
  have h64 : (2 : Nat) ^ 64 = 18446744073709551616 := by norm_num
  have h63 : (2 : Nat) ^ 63 = 9223372036854775808 := by norm_num
  unfold floatFlip
  split <;> omega

theorem floatUnflip_floatFlip (n : Nat) (h : n < 2 ^ 64) :
    floatUnflip (floatFlip n) = n := by
  have h64 : (2 : Nat) ^ 64 = 18446744073709551616 := by norm_num
  have h63 : (2 : Nat) ^ 63 = 9223372036854775808 := by norm_num
  unfold floatFlip floatUnflip
  split <;> split <;> omega

theorem take_append_exact {α : Type} (a b : List α) (n : Nat) (h : n = a.length) :
    (a ++ b).take n = a := by
  subst h; exact List.take_left a b

theorem drop_append_exact {α : Type} (a b : List α) (n : Nat) (h : n = a.length) :
    (a ++ b).drop n = b := by
  subst h; exact List.drop_left a b

theorem unescape_zero_255 (l : List Byte) :
    unescape (0 :: 255 :: l) =
      match unescape l with
      | some (c, r) => some (0 :: c, r)
      | none => none := by
  conv_lhs => unfold unescape
  rw [if_pos rfl]

theorem unescape_nonzero (b : Byte) (l : List Byte) (hb : ¬ b = 0) :
    unescape (b :: l) =
      match unescape l with
      | some (c, r) => some (b :: c, r)
      | none => none := by
  conv_lhs => unfold unescape
  rw [if_neg hb]

theorem unescape_escape (c : List Byte) :
    ∀ r : List Byte, r.head? ≠ some 255 →
      unescape (escapeBytes c ++ 0 :: r) = some (c, r) := by
  induction c with
  | nil =>
    intro r hr
    simp only [escapeBytes, List.nil_append]
    unfold unescape
    rw [if_pos rfl]
    split
    · simp at hr
    · rfl
  | cons b c2 ih =>
    intro r hr
    by_cases hb : b = 0
    · subst hb
      have hesc : escapeBytes (0 :: c2) = 0 :: 255 :: escapeBytes c2 := by
        simp [escapeBytes]
      rw [hesc, List.cons_append, List.cons_append, unescape_zero_255, ih r hr]
    · have hesc : escapeBytes (b :: c2) = b :: escapeBytes c2 := by
        simp [escapeBytes, hb]
      rw [hesc, List.cons_append, unescape_nonzero b _ hb, ih r hr]

theorem unpackOne_packInt (i : Int) (rest : List Byte)
    (hlo : -(256 ^ 8 : Int) < i) (hhi : i < (256 ^ 8 : Int)) :
    unpackOne (packInt i ++ rest) = some (ScalarValue.int i, rest) := by
  by_cases hpos : 0 ≤ i
  · have hm : minBytes i.toNat ≤ 8 := by
      rw [minBytes_le_iff]
      have : (i.toNat : Int) < ((256 ^ 8 : Nat) : Int) := by
        rw [Int.toNat_of_nonneg hpos]; exact_mod_cast hhi
      exact_mod_cast this
    rw [packInt, if_pos hpos]
    simp only []
    set m := minBytes i.toNat with hm_def
    set n := i.toNat with hn_def
    have htag0 : ¬ (20 + m = 0) := by omega
    have htag1 : ¬ (20 + m = 1) := by omega
    have htag2 : ¬ (20 + m = 2) := by omega
    have htag33 : ¬ (20 + m = 33) := by omega
    have htag48 : ¬ (20 + m = 48) := by omega
    have htagrange : 12 ≤ 20 + m ∧ 20 + m ≤ 28 := by omega
    have htagge : 20 ≤ 20 + m := by omega
    rw [List.cons_append, unpackOne]
    rw [if_neg htag0, if_neg htag1, if_neg htag2, if_neg htag33, if_neg htag48,
      if_pos htagrange]
    simp only [if_pos htagge, Nat.add_sub_cancel_left]
    have hlen : (encBE m n).length = m := encBE_length m n
    have htake : (encBE m n ++ rest).take m = encBE m n :=
      take_append_exact _ _ _ hlen.symm
    have hdrop : (encBE m n ++ rest).drop m = rest :=
      drop_append_exact _ _ _ hlen.symm
    have hmle : m ≤ (encBE m n ++ rest).length := by
      simp [hlen]
    rw [if_pos hmle, htake, hdrop, decBE_encBE m n (lt_pow_minBytes n)]
    rw [hn_def, Int.toNat_of_nonneg hpos]
  · have hneg : i < 0 := by omega
    have hn_pos : 0 < (-i).toNat := by omega
    have hm : minBytes (-i).toNat ≤ 8 := by
      rw [minBytes_le_iff]
      have : ((-i).toNat : Int) < ((256 ^ 8 : Nat) : Int) := by
        rw [Int.toNat_of_nonneg (by omega)]
        push_cast
        omega
      exact_mod_cast this
    have hm_pos : 0 < minBytes (-i).toNat := by
      rcases Nat.eq_zero_or_pos (minBytes (-i).toNat) with h | h
      · rw [minBytes_eq_zero_iff] at h; omega
      · exact h
    rw [packInt, if_neg hpos]
    simp only []
    set m := minBytes (-i).toNat with hm_def
    have hipow : (-i : Int) < 256 ^ m := by
      have := lt_pow_minBytes (-i).toNat
      have hcast : (((-i).toNat : Int)) = -i := Int.toNat_of_nonneg (by omega)
      calc (-i : Int) = ((-i).toNat : Int) := hcast.symm
        _ < ((256 ^ m : Nat) : Int) := by exact_mod_cast this
        _ = (256 : Int) ^ m := by push_cast; ring
    have hpow_pos : (1 : Int) ≤ 256 ^ m := one_le_pow₀ (by omega)
    have hoffs_nonneg : 0 ≤ i + (256 ^ m - 1 : Int) := by omega
    have hoffs_lt : i + (256 ^ m - 1 : Int) < 256 ^ m := by omega
    have htag0 : ¬ (20 - m = 0) := by omega
    have htag1 : ¬ (20 - m = 1) := by omega
    have htag2 : ¬ (20 - m = 2) := by omega
    have htag33 : ¬ (20 - m = 33) := by omega
    have htag48 : ¬ (20 - m = 48) := by omega
    have htagrange : 12 ≤ 20 - m ∧ 20 - m ≤ 28 := by omega
    have htaglt : ¬ (20 ≤ 20 - m) := by omega
    rw [List.cons_append, unpackOne]
    rw [if_neg htag0, if_neg htag1, if_neg htag2, if_neg htag33, if_neg htag48,
      if_pos htagrange]
    simp only [if_neg htaglt]
    have hmm : 20 - (20 - m) = m := by omega
    rw [hmm]
    set np := (i + (256 ^ m - 1 : Int)).toNat with hnp_def
    have hnp_lt : np < 256 ^ m := by
      have : ((np : Int)) = i + (256 ^ m - 1 : Int) := Int.toNat_of_nonneg hoffs_nonneg
      have hc : ((np : Int)) < ((256 ^ m : Nat) : Int) := by
        rw [this]
        calc i + (256 ^ m - 1 : Int) < 256 ^ m := hoffs_lt
          _ = ((256 ^ m : Nat) : Int) := by push_cast; ring
      exact_mod_cast hc
    have hlen : (encBE m np).length = m := encBE_length m np
    have htake : (encBE m np ++ rest).take m = encBE m np :=
      take_append_exact _ _ _ hlen.symm
    have hdrop : (encBE m np ++ rest).drop m = rest :=
      drop_append_exact _ _ _ hlen.symm
    have hmle : m ≤ (encBE m np ++ rest).length := by
      simp [hlen]
    rw [if_pos hmle, htake, hdrop, decBE_encBE m np hnp_lt]
    have : ((np : Int)) - (256 ^ m - 1 : Int) = i := by
      rw [hnp_def, Int.toNat_of_nonneg hoffs_nonneg]; ring
    rw [this]

theorem unpackOne_packElem (v : ScalarValue) (rest : List Byte)
    (hv : supportedPart v) (hr : rest.head? ≠ some 255) :
    unpackOne (packElem v ++ rest) = some (v, rest) := by
  cases v with
  | null => simp [packElem, unpackOne]
  | int i => exact unpackOne_packInt i rest hv.1 hv.2
  | str s =>
    have h1 : packElem (ScalarValue.str s) ++ rest =
        2 :: (escapeBytes s ++ 0 :: rest) := by
      simp [packElem]
    rw [h1, unpackOne]
    rw [if_neg (by omega : ¬ (2 : Nat) = 0), if_neg (by omega : ¬ (2 : Nat) = 1),
      if_pos rfl, unescape_escape s rest hr]
  | bytes b =>
    have h1 : packElem (ScalarValue.bytes b) ++ rest =
        1 :: (escapeBytes b ++ 0 :: rest) := by
      simp [packElem]
    rw [h1, unpackOne]
    rw [if_neg (by omega : ¬ (1 : Nat) = 0), if_pos rfl, unescape_escape b rest hr]
  | float bits =>
    have hlen : (encBE 8 (floatFlip bits)).length = 8 := encBE_length _ _
    have h1 : packElem (ScalarValue.float bits) ++ rest =
        33 :: (encBE 8 (floatFlip bits) ++ rest) := by
      simp [packElem]
    rw [h1, unpackOne]
    rw [if_neg (by omega : ¬ (33 : Nat) = 0), if_neg (by omega : ¬ (33 : Nat) = 1),
      if_neg (by omega : ¬ (33 : Nat) = 2), if_pos rfl]
    have hle : 8 ≤ (encBE 8 (floatFlip bits) ++ rest).length := by simp [hlen]
    rw [if_pos hle, take_append_exact _ _ _ hlen.symm, drop_append_exact _ _ _ hlen.symm]
    have hflip : floatFlip bits < 2 ^ 64 := floatFlip_lt bits hv
    have h2 : (256 : Nat) ^ 8 = 2 ^ 64 := by norm_num
    rw [decBE_encBE 8 (floatFlip bits) (by omega), floatUnflip_floatFlip bits hv]
  | uuid b =>
    have hlen : b.length = 16 := hv.1
    have h1 : packElem (ScalarValue.uuid b) ++ rest = 48 :: (b ++ rest) := by
      simp [packElem]
    rw [h1, unpackOne]
    rw [if_neg (by omega : ¬ (48 : Nat) = 0), if_neg (by omega : ¬ (48 : Nat) = 1),
      if_neg (by omega : ¬ (48 : Nat) = 2), if_neg (by omega : ¬ (48 : Nat) = 33),
      if_pos rfl]
    have hle : 16 ≤ (b ++ rest).length := by simp [hlen]
    rw [if_pos hle, take_append_exact _ _ _ hlen.symm, drop_append_exact _ _ _ hlen.symm]

theorem packElem_ne_nil (v : ScalarValue) : packElem v ≠ [] := by
  cases v with
  | int i =>
    rw [packElem, packInt]
    split <;> simp
  | _ => simp [packElem]

theorem packTuple_head_ne_255 (parts : List ScalarValue)
    (h : ∀ v ∈ parts, supportedPart v) :
    (packTuple parts).head? ≠ some 255 := by
  cases parts with
  | nil => simp [packTuple]
  | cons v rest =>
    have hv : supportedPart v := h v (by simp)
    rw [packTuple]
    cases v with
    | null => simp [packElem]
    | str s => simp [packElem]
    | bytes b => simp [packElem]
    | float bits => simp [packElem, encBE]
    | uuid b => simp [packElem]
    | int i =>
      rw [packElem, packInt]
      by_cases hpos : 0 ≤ i
      · have hm : minBytes i.toNat ≤ 8 := by
          rw [minBytes_le_iff]
          have : (i.toNat : Int) < ((256 ^ 8 : Nat) : Int) := by
            rw [Int.toNat_of_nonneg hpos]; exact_mod_cast hv.2
          exact_mod_cast this
        rw [if_pos hpos]
        simp only [List.cons_append, List.head?]
        intro hc
        have : 20 + minBytes i.toNat = 255 := by simpa using hc
        omega
      · rw [if_neg hpos]
        simp only [List.cons_append, List.head?]
        intro hc
        have : 20 - minBytes (-i).toNat = 255 := by simpa using hc
        omega

theorem packTuple_length_ge (parts : List ScalarValue) :
    parts.length ≤ (packTuple parts).length := by
  induction parts with
  | nil => simp [packTuple]
  | cons v rest ih =>
    rw [packTuple]
    have h1 : 1 ≤ (packElem v).length := by
      cases hpe : packElem v with
      | nil => exact absurd hpe (packElem_ne_nil v)
      | cons a as => simp
    simp only [List.length_append, List.length_cons]
    omega

theorem unpackTupleFuel_packTuple (parts : List ScalarValue) :
    ∀ fuel : Nat, (∀ v ∈ parts, supportedPart v) → parts.length ≤ fuel →
      unpackTupleFuel fuel (packTuple parts) = some parts := by
  induction parts with
  | nil =>
    intro fuel _ _
    cases fuel <;> rfl
  | cons v rest ih =>
    intro fuel h hfuel
    cases fuel with
    | zero => simp at hfuel
    | succ f =>
      have hone : unpackOne (packElem v ++ packTuple rest) = some (v, packTuple rest) :=
        unpackOne_packElem v (packTuple rest) (h v (by simp))
          (packTuple_head_ne_255 rest (fun w hw => h w (by simp [hw])))
      cases hpe : packElem v with
      | nil => exact absurd hpe (packElem_ne_nil v)
      | cons a as =>
        have hpt : packTuple (v :: rest) = a :: (as ++ packTuple rest) := by
          rw [packTuple, hpe]; simp
        rw [hpt, unpackTupleFuel]
        have hone2 : unpackOne (a :: (as ++ packTuple rest)) = some (v, packTuple rest) := by
          rw [← List.cons_append, ← hpe]; exact hone
        rw [hone2]
        show (match unpackTupleFuel f (packTuple rest) with
              | some vs => some (v :: vs)
              | none => none) = some (v :: rest)
        rw [ih f (fun w hw => h w (by simp [hw])) (by simpa using hfuel)]

theorem unpackTuple_packTuple (parts : List ScalarValue)
    (h : ∀ v ∈ parts, supportedPart v) :
    unpackTuple (packTuple parts) = some parts :=
  unpackTupleFuel_packTuple parts (packTuple parts).length h (packTuple_length_ge parts)

/-- C1: KeyCodec round-trip — for every key whose index parts are within the
supported scalar type set, unpacking the serialized form with the same table
(`FromBinary(table, k.SerializeToBytes())`) recovers a key whose
`IndexParts` (and table) equal the original's. -/
theorem claim_C1_keycodec_roundtrip (k : TableKey)
    (h : ∀ v ∈ k.indexParts, supportedPart v) :
    FromBinary k.table (SerializeToBytes k) = some (NewKey k.table k.indexParts) := by
  rcases k with ⟨table, parts⟩
  by_cases hp : parts = []
  · subst hp
    rw [SerializeToBytes, if_pos rfl]
    rw [FromBinary, if_pos (List.take_length table)]
    rw [List.drop_length]
    rfl
  · rw [SerializeToBytes, if_neg hp]
    rw [FromBinary,
      if_pos (take_append_exact table (packTuple parts) table.length rfl)]
    rw [drop_append_exact table (packTuple parts) table.length rfl]
    rw [unpackTuple_packTuple parts h]
    rfl

/-- Witness for C1 at a concrete key exercising every supported scalar
shape. -/
theorem claim_C1_witness :
    FromBinary [7, 3]
        (SerializeToBytes (NewKey [7, 3]
          [ScalarValue.int 1000, ScalarValue.int (-5),
           ScalarValue.str [104, 105], ScalarValue.bytes [0, 255, 1],
           ScalarValue.float 12345, ScalarValue.null,
           ScalarValue.uuid [0, 1, 2, 3, 4, 5, 6, 7, 8, 9, 10, 11, 12, 13, 14, 15]])) =
      some (NewKey [7, 3]
        [ScalarValue.int 1000, ScalarValue.int (-5),
         ScalarValue.str [104, 105], ScalarValue.bytes [0, 255, 1],
         ScalarValue.float 12345, ScalarValue.null,
         ScalarValue.uuid [0, 1, 2, 3, 4, 5, 6, 7, 8, 9, 10, 11, 12, 13, 14, 15]]) :=
  claim_C1_keycodec_roundtrip
    (NewKey [7, 3]
      [ScalarValue.int 1000, ScalarValue.int (-5),
       ScalarValue.str [104, 105], ScalarValue.bytes [0, 255, 1],
       ScalarValue.float 12345, ScalarValue.null,
       ScalarValue.uuid [0, 1, 2, 3, 4, 5, 6, 7, 8, 9, 10, 11, 12, 13, 14, 15]])
    (by decide)

/-- C6: serializing a key constructed with an empty `indexParts` list
returns exactly the table bytes, with nothing appended. -/
theorem claim_C6_empty_parts_serialization (table : List Byte) :
    SerializeToBytes (NewKey table []) = table := rfl

end Keys

namespace Metadata

theorem retroViolation_eq_true_iff (indexes : List (String × PrimaryIndexMetadata))
    (p : String × Nat) :
    retroViolation indexes p = true ↔
      ∃ created, lookupName indexes p.1 = some created ∧ created.ID ≤ p.2 := by
  unfold retroViolation
  cases h : lookupName indexes p.1 <;> simp [h]

/-- C7: version-0 payloads decode to the big-endian `uint32` id of the raw
data without consulting the JSON decoder; payloads of version at least 1 are
JSON-decoded and a JSON failure yields an Internal error. -/
theorem claim_C7_legacy_metadata_decoding (u u2 : Unmarshal) (payload : TableData) :
    (payload.ver = 0 →
      PrimaryIndexSubspace.decodeMetadata u payload =
        Except.ok { ID := ByteToUInt32 payload.rawData, Name := "" } ∧
      PrimaryIndexSubspace.decodeMetadata u payload =
        PrimaryIndexSubspace.decodeMetadata u2 payload) ∧
    (1 ≤ payload.ver →
      (∀ m, u payload.rawData = some m →
        PrimaryIndexSubspace.decodeMetadata u payload = Except.ok m) ∧
      (u payload.rawData = none →
        PrimaryIndexSubspace.decodeMetadata u payload =
          Except.error (internalErr "failed to unmarshal collection metadata"))) := by
  constructor
  · intro h0
    constructor <;> simp [PrimaryIndexSubspace.decodeMetadata, h0]
  · intro h1
    have hne : ¬ payload.ver = 0 := by omega
    refine ⟨fun m hm => ?_, fun hm => ?_⟩
    · simp [PrimaryIndexSubspace.decodeMetadata, hne, hm]
    · simp [PrimaryIndexSubspace.decodeMetadata, hne, hm]

/-- Witness for C7: a version-0 payload decodes to its big-endian id even
under a failing JSON decoder, and a version-1 payload with a failing JSON
decoder yields the Internal error. -/
theorem claim_C7_witness :
    PrimaryIndexSubspace.decodeMetadata (fun _ => none) ⟨0, [0, 0, 1, 2]⟩ =
      Except.ok { ID := 258, Name := "" } ∧
    PrimaryIndexSubspace.decodeMetadata (fun _ => none) ⟨1, [5]⟩ =
      Except.error (internalErr "failed to unmarshal collection metadata") := by
  have hz := (claim_C7_legacy_metadata_decoding (fun _ => none)
    (fun _ => some ⟨9, "z"⟩) ⟨0, [0, 0, 1, 2]⟩).1 rfl
  have ho := ((claim_C7_legacy_metadata_decoding (fun _ => none)
    (fun _ => some ⟨9, "z"⟩) ⟨1, [5]⟩).2 (by norm_num)).2 rfl
  refine ⟨?_, ho⟩
  have hb : ByteToUInt32 [0, 0, 1, 2] = 258 := by decide
  rw [hz.1, hb]

/-- C2: over the maps folded from the `listMetadata` rows,
`PrimaryIndexSubspace.list` returns an Internal error exactly when some name
is present both as dropped and as active with the dropped id at least the
active id, and returns the active map otherwise. -/
theorem list_after_fold (u : Unmarshal) (rows : List ListedRow)
    (indexes : List (String × PrimaryIndexMetadata))
    (droppedIndexes : List (String × Nat))
    (hfold : foldRows u rows ([], []) = Except.ok (indexes, droppedIndexes)) :
    PrimaryIndexSubspace.list u rows =
      match droppedIndexes.find? (retroViolation indexes) with
      | some _ =>
        Except.error (internalErr "retrogression found in indexes assigned value")
      | none => Except.ok indexes := by
  rw [PrimaryIndexSubspace.list, hfold]

theorem claim_C2_retrogression_check (u : Unmarshal) (rows : List ListedRow)
    (indexes : List (String × PrimaryIndexMetadata))
    (droppedIndexes : List (String × Nat))
    (hfold : foldRows u rows ([], []) = Except.ok (indexes, droppedIndexes)) :
    ((∃ p ∈ droppedIndexes, ∃ created,
        lookupName indexes p.1 = some created ∧ created.ID ≤ p.2) →
      ∃ s, PrimaryIndexSubspace.list u rows = Except.error ⟨ErrCode.internalErr, s⟩) ∧
    (∀ s, PrimaryIndexSubspace.list u rows = Except.error ⟨ErrCode.internalErr, s⟩ →
      ∃ p ∈ droppedIndexes, ∃ created,
        lookupName indexes p.1 = some created ∧ created.ID ≤ p.2) ∧
    ((¬ ∃ p ∈ droppedIndexes, ∃ created,
        lookupName indexes p.1 = some created ∧ created.ID ≤ p.2) →
      PrimaryIndexSubspace.list u rows = Except.ok indexes) := by
  have hlist := list_after_fold u rows indexes droppedIndexes hfold
  refine ⟨?_, ?_, ?_⟩
  · rintro ⟨p, hp, created, hc, hle⟩
    rw [hlist]
    cases hfind : droppedIndexes.find? (retroViolation indexes) with
    | none =>
      exfalso
      have := List.find?_eq_none.mp hfind p hp
      exact this ((retroViolation_eq_true_iff indexes p).mpr ⟨created, hc, hle⟩)
    | some q => exact ⟨_, rfl⟩
  · intro s hs
    rw [hlist] at hs
    cases hfind : droppedIndexes.find? (retroViolation indexes) with
    | none => rw [hfind] at hs; exact absurd hs (by simp)
    | some q =>
      have hq : retroViolation indexes q = true := List.find?_some hfind
      have hqm : q ∈ droppedIndexes := List.mem_of_find?_eq_some hfind
      obtain ⟨created, hc, hle⟩ := (retroViolation_eq_true_iff indexes q).mp hq
      exact ⟨q, hqm, created, hc, hle⟩
  · intro hno
    rw [hlist]
    have hfind : droppedIndexes.find? (retroViolation indexes) = none := by
      rw [List.find?_eq_none]
      intro p hp hv
      exact hno ⟨p, hp, (retroViolation_eq_true_iff indexes p).mp hv⟩
    rw [hfind]

/-- Witness for C2: an index soft-deleted with id 5 and recreated with the
smaller id 4 makes `list` fail with an Internal error. -/
theorem claim_C2_witness :
    ∃ s, PrimaryIndexSubspace.list (fun _ => none)
        [⟨false, "x", ⟨0, [0, 0, 0, 4]⟩⟩, ⟨true, "x", ⟨0, [0, 0, 0, 5]⟩⟩] =
      Except.error ⟨ErrCode.internalErr, s⟩ :=
  (claim_C2_retrogression_check (fun _ => none)
      [⟨false, "x", ⟨0, [0, 0, 0, 4]⟩⟩, ⟨true, "x", ⟨0, [0, 0, 0, 5]⟩⟩]
      [("x", ⟨4, ""⟩)] [("x", 5)] rfl).1
    ⟨("x", 5), by simp, ⟨4, ""⟩, rfl, by decide⟩

theorem validateArgs_bad_coords (nsID dbID collID : Nat) (name : String)
    (md : Option (Option PrimaryIndexMetadata))
    (h : nsID = 0 ∨ dbID = 0 ∨ collID = 0 ∨ name = "") :
    ∃ s, PrimaryIndexSubspace.validateArgs nsID dbID collID name md =
      some ⟨ErrCode.invalidArgument, s⟩ := by
  unfold PrimaryIndexSubspace.validateArgs
  by_cases hz : nsID = 0 ∨ dbID = 0 ∨ collID = 0
  · exact ⟨"invalid id", by rw [if_pos hz]; rfl⟩
  · have hn : name = "" := by tauto
    exact ⟨"empty index name", by rw [if_neg hz, if_pos hn]; rfl⟩

theorem validateArgs_nil_payload (nsID dbID collID : Nat) (name : String) :
    ∃ s, PrimaryIndexSubspace.validateArgs nsID dbID collID name (some none) =
      some ⟨ErrCode.invalidArgument, s⟩ := by
  unfold PrimaryIndexSubspace.validateArgs
  by_cases hz : nsID = 0 ∨ dbID = 0 ∨ collID = 0
  · exact ⟨"invalid id", by rw [if_pos hz]; rfl⟩
  · by_cases hn : name = ""
    · exact ⟨"empty index name", by rw [if_neg hz, if_pos hn]; rfl⟩
    · exact ⟨"invalid nil payload", by rw [if_neg hz, if_neg hn]; rfl⟩

/-- C8: every `PrimaryIndexSubspace` operation returns an InvalidArgument
error — performing no substrate operation — when a coordinate is zero or the
name is empty, and the payload-carrying operations do likewise on a nil
payload. -/
theorem claim_C8_argument_validation (c : PrimaryIndexSubspace) (u : Unmarshal)
    (store : SubstrateStore) (nsID dbID collID : Nat) (name : String)
    (md : Option PrimaryIndexMetadata) :
    ((nsID = 0 ∨ dbID = 0 ∨ collID = 0 ∨ name = "") →
      (∃ s, c.insert nsID dbID collID name md =
        (Except.error ⟨ErrCode.invalidArgument, s⟩, [])) ∧
      (∃ s, c.Get u store nsID dbID collID name =
        (Except.error ⟨ErrCode.invalidArgument, s⟩, [])) ∧
      (∃ s, c.Update nsID dbID collID name md =
        (Except.error ⟨ErrCode.invalidArgument, s⟩, [])) ∧
      (∃ s, c.delete nsID dbID collID name =
        (Except.error ⟨ErrCode.invalidArgument, s⟩, [])) ∧
      (∃ s, c.softDelete nsID dbID collID name =
        (Except.error ⟨ErrCode.invalidArgument, s⟩, []))) ∧
    (md = none →
      (∃ s, c.insert nsID dbID collID name md =
        (Except.error ⟨ErrCode.invalidArgument, s⟩, [])) ∧
      (∃ s, c.Update nsID dbID collID name md =
        (Except.error ⟨ErrCode.invalidArgument, s⟩, []))) := by
  constructor
  · intro hbad
    obtain ⟨s1, hs1⟩ :=
      validateArgs_bad_coords nsID dbID collID name (some md) hbad
    obtain ⟨s2, hs2⟩ := validateArgs_bad_coords nsID dbID collID name none hbad
    refine ⟨⟨s1, ?_⟩, ⟨s2, ?_⟩, ⟨s1, ?_⟩, ⟨s2, ?_⟩, ⟨s2, ?_⟩⟩
    · rw [PrimaryIndexSubspace.insert]
      have : PrimaryIndexSubspace.validateArgs nsID dbID collID name (some md) =
          some ⟨ErrCode.invalidArgument, s1⟩ := hs1
      rw [this, insertMetadata]
    · rw [PrimaryIndexSubspace.Get, hs2, getPayload]
    · rw [PrimaryIndexSubspace.Update]
      have : PrimaryIndexSubspace.validateArgs nsID dbID collID name (some md) =
          some ⟨ErrCode.invalidArgument, s1⟩ := hs1
      rw [this, updateMetadata]
    · rw [PrimaryIndexSubspace.delete, hs2, deleteMetadata]
    · rw [PrimaryIndexSubspace.softDelete, hs2, softDeleteMetadata]
  · intro hnil
    subst hnil
    obtain ⟨s1, hs1⟩ := validateArgs_nil_payload nsID dbID collID name
    refine ⟨⟨s1, ?_⟩, ⟨s1, ?_⟩⟩
    · rw [PrimaryIndexSubspace.insert, hs1, insertMetadata]
    · rw [PrimaryIndexSubspace.Update, hs1, updateMetadata]

/-- Witness for C8 at the concrete subspace `⟨[1], [2]⟩`: a zero `nsID`
fails every operation without substrate access, and a nil payload fails
insert and update. -/
theorem claim_C8_witness :
    ((∃ s, PrimaryIndexSubspace.insert ⟨[1], [2]⟩ 0 2 3 "idx" (some ⟨1, "idx"⟩) =
        (Except.error ⟨ErrCode.invalidArgument, s⟩, [])) ∧
      (∃ s, PrimaryIndexSubspace.Get ⟨[1], [2]⟩ (fun _ => none) (fun _ => none)
          0 2 3 "idx" = (Except.error ⟨ErrCode.invalidArgument, s⟩, [])) ∧
      (∃ s, PrimaryIndexSubspace.Update ⟨[1], [2]⟩ 0 2 3 "idx" (some ⟨1, "idx"⟩) =
        (Except.error ⟨ErrCode.invalidArgument, s⟩, [])) ∧
      (∃ s, PrimaryIndexSubspace.delete ⟨[1], [2]⟩ 0 2 3 "idx" =
        (Except.error ⟨ErrCode.invalidArgument, s⟩, [])) ∧
      (∃ s, PrimaryIndexSubspace.softDelete ⟨[1], [2]⟩ 0 2 3 "idx" =
        (Except.error ⟨ErrCode.invalidArgument, s⟩, []))) ∧
    ((∃ s, PrimaryIndexSubspace.insert ⟨[1], [2]⟩ 1 2 3 "idx" none =
        (Except.error ⟨ErrCode.invalidArgument, s⟩, [])) ∧
      (∃ s, PrimaryIndexSubspace.Update ⟨[1], [2]⟩ 1 2 3 "idx" none =
        (Except.error ⟨ErrCode.invalidArgument, s⟩, []))) :=
  ⟨(claim_C8_argument_validation ⟨[1], [2]⟩ (fun _ => none) (fun _ => none)
      0 2 3 "idx" (some ⟨1, "idx"⟩)).1 (Or.inl rfl),
   (claim_C8_argument_validation ⟨[1], [2]⟩ (fun _ => none) (fun _ => none)
      1 2 3 "idx" none).2 rfl⟩

end Metadata

namespace Database

theorem indexedDataType_eq_true_iff (p : QueryPlan) :
    indexedDataType p = true ↔
      p.dataType ≠ FieldType.byteType ∧ p.dataType ≠ FieldType.unknownType ∧
        p.dataType ≠ FieldType.arrayType := by
  unfold indexedDataType
  cases p.dataType <;> simp

theorem eqCandidate_some_props (coll : DefaultCollection)
    (queryFilters : List QueryFilter) (f : QueryableField) (p : QueryPlan)
    (h : eqCandidate coll queryFilters f = some p) :
    p.queryType = QueryType.EQUAL ∧
      ∃ flt ∈ queryFilters, flt.op = FilterOp.eq ∧ flt.field = f.name ∧
        p.dataType = flt.litType := by
  unfold eqCandidate at h
  cases hfil : queryFilters.filter
      (fun flt => flt.op = FilterOp.eq ∧ flt.field = f.name) with
  | nil => rw [hfil] at h; exact absurd h (by simp)
  | cons flt rest =>
    rw [hfil] at h
    have hp : p =
        { queryType := QueryType.EQUAL,
          keys := (dedupLits ((flt :: rest).map (fun x => x.lit))).map
            (secondaryIndexKey coll f.name flt.litType),
          dataType := flt.litType,
          selectivity := 0 } := by
      cases h; rfl
    have hmem : flt ∈ queryFilters.filter
        (fun flt => flt.op = FilterOp.eq ∧ flt.field = f.name) := by
      rw [hfil]; simp
    rw [List.mem_filter] at hmem
    have hpred := of_decide_eq_true hmem.2
    exact ⟨by rw [hp], flt, hmem.1, hpred.1, hpred.2, by rw [hp]⟩

theorem eqCandidate_exists (coll : DefaultCollection)
    (queryFilters : List QueryFilter) (f : QueryableField) (flt : QueryFilter)
    (hmem : flt ∈ queryFilters) (hop : flt.op = FilterOp.eq)
    (hfield : flt.field = f.name) :
    ∃ p, eqCandidate coll queryFilters f = some p := by
  unfold eqCandidate
  cases hfil : queryFilters.filter
      (fun flt => flt.op = FilterOp.eq ∧ flt.field = f.name) with
  | nil =>
    exfalso
    have : flt ∈ queryFilters.filter
        (fun flt => flt.op = FilterOp.eq ∧ flt.field = f.name) :=
      List.mem_filter.mpr ⟨hmem, decide_eq_true ⟨hop, hfield⟩⟩
    rw [hfil] at this
    exact absurd this (List.not_mem_nil flt)
  | cons flt0 rest => exact ⟨_, rfl⟩

theorem mem_insertPlan (p x : QueryPlan) (l : List QueryPlan) :
    x ∈ insertPlan p l ↔ x = p ∨ x ∈ l := by
  induction l with
  | nil => simp [insertPlan]
  | cons q rest ih =>
    unfold insertPlan
    split
    · simp [List.mem_cons]
      try tauto
    · simp [List.mem_cons, ih]
      try tauto

theorem mem_sortPlans (x : QueryPlan) (l : List QueryPlan) :
    x ∈ sortPlans l ↔ x ∈ l := by
  induction l with
  | nil => simp [sortPlans]
  | cons p rest ih =>
    rw [sortPlans, mem_insertPlan]
    simp [ih]

/-- C3: with a non-empty filter list and at least one active indexed field,
an equality filter on an indexed field whose data type is indexable (not
`Byte`, `Unknown` or `Array`) makes `BuildSecondaryIndexKeys` return a plan
whose query type is `EQUAL`.  Filters are assumed type-consistent with the
schema (a filter's literal type is the declared type of the field it
names). -/
theorem claim_C3_equality_plan_preference (coll : DefaultCollection)
    (queryFilters : List QueryFilter)
    (hne : queryFilters ≠ [])
    (hfieldsne : coll.activeIndexedFields ≠ [])
    (hconsistent : ∀ flt ∈ queryFilters, ∀ f ∈ coll.activeIndexedFields,
      flt.field = f.name → flt.litType = f.dataType)
    (hexists : ∃ f ∈ coll.activeIndexedFields, ∃ flt ∈ queryFilters,
      flt.op = FilterOp.eq ∧ flt.field = f.name ∧
      flt.litType ≠ FieldType.byteType ∧ flt.litType ≠ FieldType.unknownType ∧
      flt.litType ≠ FieldType.arrayType) :
    ∃ plan, BuildSecondaryIndexKeys coll queryFilters = Except.ok plan ∧
      plan.queryType = QueryType.EQUAL := by
  obtain ⟨f, hf, flt, hflt, hop, hfield, hb, hu, ha⟩ := hexists
  obtain ⟨p, hcand⟩ := eqCandidate_exists coll queryFilters f flt hflt hop hfield
  obtain ⟨hpq, flt2, hflt2, hop2, hfield2, hdt2⟩ :=
    eqCandidate_some_props coll queryFilters f p hcand
  have hdtf : p.dataType = f.dataType := by
    rw [hdt2]
    exact hconsistent flt2 hflt2 f hf hfield2
  have hfdt : f.dataType = flt.litType := (hconsistent flt hflt f hf hfield).symm
  have hpidx : indexedDataType p = true := by
    rw [indexedDataType_eq_true_iff, hdtf, hfdt]
    exact ⟨hb, hu, ha⟩
  have hpmem : p ∈ coll.activeIndexedFields.filterMap (eqCandidate coll queryFilters) :=
    List.mem_filterMap.mpr ⟨f, hf, hcand⟩
  cases hfm : coll.activeIndexedFields.filterMap (eqCandidate coll queryFilters) with
  | nil => rw [hfm] at hpmem; exact absurd hpmem (List.not_mem_nil p)
  | cons q qs =>
    have hbuild : eqBuilderBuild coll queryFilters coll.activeIndexedFields =
        Except.ok (q :: qs) := by
      rw [eqBuilderBuild, hfm]
    rw [hfm] at hpmem
    have hfind : ∃ q2, (q :: qs).find? indexedDataType = some q2 := by
      cases hfq : (q :: qs).find? indexedDataType with
      | none =>
        exfalso
        exact (List.find?_eq_none.mp hfq p hpmem) hpidx
      | some q2 => exact ⟨q2, rfl⟩
    obtain ⟨q2, hq2⟩ := hfind
    have hq2mem : q2 ∈ q :: qs := List.mem_of_find?_eq_some hq2
    rw [← hfm] at hq2mem
    obtain ⟨g, _, hgcand⟩ := List.mem_filterMap.mp hq2mem
    have hq2eq : q2.queryType = QueryType.EQUAL :=
      (eqCandidate_some_props coll queryFilters g q2 hgcand).1
    refine ⟨q2, ?_, hq2eq⟩
    rw [BuildSecondaryIndexKeys, if_neg hne, if_neg hfieldsne, hbuild]
    show (match (q :: qs).find? indexedDataType with
          | some plan => Except.ok plan
          | none =>
            match rangeBuilderBuild coll queryFilters coll.activeIndexedFields with
            | [] => Except.error (invalidArgument "Could not find a query range")
            | p :: rest =>
              match (sortPlans (p :: rest)).find? indexedDataType with
              | some plan => Except.ok plan
              | none =>
                Except.error (invalidArgument "Could not find a useuable query plan")) =
        Except.ok q2
    rw [hq2]

/-- Witness for C3: an equality filter on the indexed `Int64` field `age`
yields an `EQUAL` plan. -/
theorem claim_C3_witness :
    ∃ plan,
      BuildSecondaryIndexKeys
          ⟨[⟨"age", FieldType.int64Type⟩], [9], [8], [105, 100, 120]⟩
          [⟨"age", FilterOp.eq, FieldType.int64Type, Keys.ScalarValue.int 30⟩] =
        Except.ok plan ∧
      plan.queryType = QueryType.EQUAL :=
  claim_C3_equality_plan_preference
    ⟨[⟨"age", FieldType.int64Type⟩], [9], [8], [105, 100, 120]⟩
    [⟨"age", FilterOp.eq, FieldType.int64Type, Keys.ScalarValue.int 30⟩]
    (by decide) (by decide)
    (by intro flt hflt f hf hn
        simp only [List.mem_singleton] at hflt hf
        subst hflt; subst hf; rfl)
    ⟨⟨"age", FieldType.int64Type⟩, by simp,
     ⟨"age", FilterOp.eq, FieldType.int64Type, Keys.ScalarValue.int 30⟩, by simp,
     rfl, rfl, by decide, by decide, by decide⟩

/-- C5: `BuildSecondaryIndexKeys` returns an invalid-argument error — and
hence no plan — when the filter list is empty, when the collection has no
active indexed fields, and when neither builder produces a plan with an
indexable data type. -/
theorem claim_C5_planner_error_cases (coll : DefaultCollection)
    (queryFilters : List QueryFilter) :
    (queryFilters = [] →
      BuildSecondaryIndexKeys coll queryFilters =
        Except.error (invalidArgument "Cannot index with an empty filter")) ∧
    (coll.activeIndexedFields = [] →
      ∃ s, BuildSecondaryIndexKeys coll queryFilters =
        Except.error ⟨ErrCode.invalidArgument, s⟩) ∧
    ((∀ plans, eqBuilderBuild coll queryFilters coll.activeIndexedFields =
        Except.ok plans → ∀ p ∈ plans, indexedDataType p = false) →
      (∀ p ∈ rangeBuilderBuild coll queryFilters coll.activeIndexedFields,
        indexedDataType p = false) →
      ∃ s, BuildSecondaryIndexKeys coll queryFilters =
        Except.error ⟨ErrCode.invalidArgument, s⟩) := by
  refine ⟨?_, ?_, ?_⟩
  · intro h
    rw [BuildSecondaryIndexKeys, if_pos h]
  · intro h
    by_cases hq : queryFilters = []
    · exact ⟨"Cannot index with an empty filter",
        by rw [BuildSecondaryIndexKeys, if_pos hq]; rfl⟩
    · exact ⟨"No indexable fields",
        by rw [BuildSecondaryIndexKeys, if_neg hq, if_pos h]; rfl⟩
  · intro heq hrange
    by_cases hq : queryFilters = []
    · exact ⟨"Cannot index with an empty filter",
        by rw [BuildSecondaryIndexKeys, if_pos hq]; rfl⟩
    by_cases hfl : coll.activeIndexedFields = []
    · exact ⟨"No indexable fields",
        by rw [BuildSecondaryIndexKeys, if_neg hq, if_pos hfl]; rfl⟩
    have hinner :
        (match eqBuilderBuild coll queryFilters coll.activeIndexedFields with
         | Except.ok eqPlans => eqPlans.find? indexedDataType
         | Except.error _ => none) = none := by
      cases hb : eqBuilderBuild coll queryFilters coll.activeIndexedFields with
      | error e => rfl
      | ok plans =>
        simp only []
        rw [List.find?_eq_none]
        intro p hp
        rw [heq plans hb p hp]
        simp
    cases hr : rangeBuilderBuild coll queryFilters coll.activeIndexedFields with
    | nil =>
      exact ⟨"Could not find a query range",
        by rw [BuildSecondaryIndexKeys, if_neg hq, if_neg hfl, hinner, hr]; rfl⟩
    | cons p rest =>
      have hfind : (sortPlans (p :: rest)).find? indexedDataType = none := by
        rw [List.find?_eq_none]
        intro x hx
        have : x ∈ rangeBuilderBuild coll queryFilters coll.activeIndexedFields := by
          rw [hr]
          exact (mem_sortPlans x (p :: rest)).mp hx
        rw [hrange x this]
        simp
      refine ⟨"Could not find a useuable query plan", ?_⟩
      rw [BuildSecondaryIndexKeys, if_neg hq, if_neg hfl, hinner, hr]
      show (match (sortPlans (p :: rest)).find? indexedDataType with
            | some plan => Except.ok plan
            | none =>
              Except.error (invalidArgument "Could not find a useuable query plan")) =
          Except.error ⟨ErrCode.invalidArgument, "Could not find a useuable query plan"⟩
      rw [hfind]
      rfl

/-- Witness for C5: the empty filter list, a collection without active
indexed fields, and a filter naming no indexed field (no equality or range
plan) each produce an invalid-argument error. -/
theorem claim_C5_witness :
    (BuildSecondaryIndexKeys ⟨[⟨"b", FieldType.byteType⟩], [9], [8], [105, 100, 120]⟩ [] =
      Except.error (invalidArgument "Cannot index with an empty filter")) ∧
    (∃ s, BuildSecondaryIndexKeys ⟨[], [9], [8], [105, 100, 120]⟩
        [⟨"z", FilterOp.eq, FieldType.int64Type, Keys.ScalarValue.int 1⟩] =
      Except.error ⟨ErrCode.invalidArgument, s⟩) ∧
    (∃ s, BuildSecondaryIndexKeys ⟨[⟨"b", FieldType.byteType⟩], [9], [8], [105, 100, 120]⟩
        [⟨"z", FilterOp.eq, FieldType.int64Type, Keys.ScalarValue.int 1⟩] =
      Except.error ⟨ErrCode.invalidArgument, s⟩) := by
  refine ⟨?_, ?_, ?_⟩
  · exact (claim_C5_planner_error_cases
      ⟨[⟨"b", FieldType.byteType⟩], [9], [8], [105, 100, 120]⟩ []).1 rfl
  · exact (claim_C5_planner_error_cases ⟨[], [9], [8], [105, 100, 120]⟩
      [⟨"z", FilterOp.eq, FieldType.int64Type, Keys.ScalarValue.int 1⟩]).2.1 rfl
  · refine (claim_C5_planner_error_cases
      ⟨[⟨"b", FieldType.byteType⟩], [9], [8], [105, 100, 120]⟩
      [⟨"z", FilterOp.eq, FieldType.int64Type, Keys.ScalarValue.int 1⟩]).2.2 ?_ ?_
    · intro plans h
      exact absurd h (by intro hc; cases hc)
    · intro p hp
      have : rangeBuilderBuild
          ⟨[⟨"b", FieldType.byteType⟩], [9], [8], [105, 100, 120]⟩
          [⟨"z", FilterOp.eq, FieldType.int64Type, Keys.ScalarValue.int 1⟩]
          [⟨"b", FieldType.byteType⟩] = [] := rfl
      rw [this] at hp
      exact absurd hp (List.not_mem_nil p)

/-- C10: once an error is latched, `Next` returns false with the state
unchanged — independently of the underlying stores, so no further read is
performed — the consumption loop emits nothing, and `Interrupted` keeps
returning that error. -/
theorem claim_C10_error_latching (coll : DefaultCollection)
    (store store2 : PrimaryStore) (s : ReaderState) (e : TigrisError)
    (h : s.err = some e) :
    ReaderNext coll store s = (false, none, s) ∧
    ReaderInterrupted s = some e ∧
    ReaderNext coll store s = ReaderNext coll store2 s ∧
    readAll coll store s = [] := by
  have hsome : s.err.isSome := by rw [h]; rfl
  have hnext : ReaderNext coll store s = (false, none, s) := by
    rw [ReaderNext, if_pos hsome]
  refine ⟨hnext, ?_, ?_, ?_⟩
  · rw [ReaderInterrupted, h]
  · rw [hnext, ReaderNext, if_pos hsome]
  · rw [readAll, readAllFuel, hnext]

/-- Witness for C10 at a reader holding a latched error and a pending hit:
`Next` is false, nothing is read or emitted, `Interrupted` returns the
error. -/
theorem claim_C10_witness :
    ReaderNext ⟨[], [9], [8], [105, 100, 120]⟩ (fun _ => Except.ok none)
        ⟨[⟨[1], [2]⟩], none, some (internalErr "boom")⟩ =
      (false, none, ⟨[⟨[1], [2]⟩], none, some (internalErr "boom")⟩) ∧
    ReaderInterrupted ⟨[⟨[1], [2]⟩], none, some (internalErr "boom")⟩ =
      some (internalErr "boom") ∧
    ReaderNext ⟨[], [9], [8], [105, 100, 120]⟩ (fun _ => Except.ok none)
        ⟨[⟨[1], [2]⟩], none, some (internalErr "boom")⟩ =
      ReaderNext ⟨[], [9], [8], [105, 100, 120]⟩
        (fun _ => Except.error (internalErr "other"))
        ⟨[⟨[1], [2]⟩], none, some (internalErr "boom")⟩ ∧
    readAll ⟨[], [9], [8], [105, 100, 120]⟩ (fun _ => Except.ok none)
        ⟨[⟨[1], [2]⟩], none, some (internalErr "boom")⟩ = [] :=
  claim_C10_error_latching ⟨[], [9], [8], [105, 100, 120]⟩
    (fun _ => Except.ok none) (fun _ => Except.error (internalErr "other"))
    ⟨[⟨[1], [2]⟩], none, some (internalErr "boom")⟩ (internalErr "boom") rfl

/-- Counterexample to C4 as stated: with two secondary hits whose first
primary row is absent and whose second exists, the consumption loop emits
nothing, not the list of rows whose primary documents exist. -/
theorem claim_C4_counterexample :
    readAll ⟨[], [9], [8], [105, 100, 120]⟩
        (fun kb =>
          if kb = Keys.SerializeToBytes (Keys.NewKey [8] [Keys.ScalarValue.bytes [88]])
          then Except.ok (some ⟨[1], [42]⟩) else Except.ok none)
        ⟨[⟨Keys.SerializeToBytes (Keys.NewKey [9]
            [Keys.ScalarValue.null, Keys.ScalarValue.null, Keys.ScalarValue.null,
             Keys.ScalarValue.null, Keys.ScalarValue.null, Keys.ScalarValue.null,
             Keys.ScalarValue.bytes [77]]), []⟩,
          ⟨Keys.SerializeToBytes (Keys.NewKey [9]
            [Keys.ScalarValue.null, Keys.ScalarValue.null, Keys.ScalarValue.null,
             Keys.ScalarValue.null, Keys.ScalarValue.null, Keys.ScalarValue.null,
             Keys.ScalarValue.bytes [88]]), []⟩], none, none⟩ ≠
      existingPrimaryRows ⟨[], [9], [8], [105, 100, 120]⟩
        (fun kb =>
          if kb = Keys.SerializeToBytes (Keys.NewKey [8] [Keys.ScalarValue.bytes [88]])
          then Except.ok (some ⟨[1], [42]⟩) else Except.ok none)
        [⟨Keys.SerializeToBytes (Keys.NewKey [9]
            [Keys.ScalarValue.null, Keys.ScalarValue.null, Keys.ScalarValue.null,
             Keys.ScalarValue.null, Keys.ScalarValue.null, Keys.ScalarValue.null,
             Keys.ScalarValue.bytes [77]]), []⟩,
         ⟨Keys.SerializeToBytes (Keys.NewKey [9]
            [Keys.ScalarValue.null, Keys.ScalarValue.null, Keys.ScalarValue.null,
             Keys.ScalarValue.null, Keys.ScalarValue.null, Keys.ScalarValue.null,
             Keys.ScalarValue.bytes [88]]), []⟩] := by
  decide

theorem readAllFuel_takeWhile (coll : DefaultCollection) (store : PrimaryStore) :
    ∀ (hits : List KeyValue) (fuel : Nat), hits.length + 1 ≤ fuel →
      readAllFuel coll store fuel ⟨hits, none, none⟩ =
        (hits.takeWhile (fun h => (hitResult coll store h).isSome)).filterMap
          (hitResult coll store) := by
  intro hits
  induction hits with
  | nil =>
    intro fuel hfuel
    cases fuel with
    | zero => simp at hfuel
    | succ f =>
      rw [readAllFuel]
      have hnext : ReaderNext coll store ⟨[], none, none⟩ =
          (false, none, ⟨[], none, none⟩) := rfl
      rw [hnext]
      rfl
  | cons h rest ih =>
    intro fuel hfuel
    cases fuel with
    | zero => simp at hfuel
    | succ f =>
      have hf : rest.length + 1 ≤ f := by
        simp only [List.length_cons] at hfuel
        omega
      rw [readAllFuel]
      cases hdec : Keys.FromBinary coll.encodedTableIndexName h.key with
      | none =>
        have hnext : ReaderNext coll store ⟨h :: rest, none, none⟩ =
            (false, none,
             ⟨rest, none, some (internalErr "key unpack failed")⟩) := by
          rw [ReaderNext]
          simp only [Option.isSome_none, Bool.false_eq_true, if_false, hdec]
        rw [hnext]
        have hres : hitResult coll store h = none := by
          simp only [hitResult, hdec]
        rw [List.takeWhile_cons, hres]
        rfl
      | some indexKey =>
        cases hstore : store (Keys.SerializeToBytes
            (Keys.NewKey coll.encodedName
              (indexKey.indexParts.drop PrimaryKeyPos))) with
        | error e =>
          have hnext : ReaderNext coll store ⟨h :: rest, none, none⟩ =
              (false, none, ⟨rest, none, some e⟩) := by
            rw [ReaderNext]
            simp only [Option.isSome_none, Bool.false_eq_true, if_false, hdec, hstore]
          rw [hnext]
          have hres : hitResult coll store h = none := by
            simp only [hitResult, hdec, hstore]
          rw [List.takeWhile_cons, hres]
          rfl
        | ok found =>
          cases found with
          | none =>
            have hnext : ReaderNext coll store ⟨h :: rest, none, none⟩ =
                (false, none, ⟨rest, none, none⟩) := by
              rw [ReaderNext]
              simp only [Option.isSome_none, Bool.false_eq_true, if_false, hdec, hstore]
            rw [hnext]
            have hres : hitResult coll store h = none := by
              simp only [hitResult, hdec, hstore]
            rw [List.takeWhile_cons, hres]
            rfl
          | some keyValue =>
            have hnext : ReaderNext coll store ⟨h :: rest, none, none⟩ =
                (true, some keyValue, ⟨rest, none, none⟩) := by
              rw [ReaderNext]
              simp only [Option.isSome_none, Bool.false_eq_true, if_false, hdec, hstore]
            rw [hnext]
            have hres : hitResult coll store h = some keyValue := by
              simp only [hitResult, hdec, hstore]
            rw [List.takeWhile_cons, hres]
            have hro := ih f hf
            show keyValue :: readAllFuel coll store f ⟨rest, none, none⟩ = _
            rw [hro]
            simp [List.filterMap_cons, hres]

/-- C4 as amended: a hit whose primary row is absent makes `Next` return
false without latching an error, ending the standard consumption loop: the
reader emits the rows of the longest prefix of hits that decode and whose
primary rows exist, rather than of all such hits. -/
theorem claim_C4_amended_reader_stops_at_missing_primary
    (coll : DefaultCollection) (store : PrimaryStore) (hits : List KeyValue) :
    readAll coll store ⟨hits, none, none⟩ =
      (hits.takeWhile (fun h => (hitResult coll store h).isSome)).filterMap
        (hitResult coll store) :=
  readAllFuel_takeWhile coll store hits (hits.length + 1) (Nat.le_refl _)

end Database

namespace KeyGen

open Keys Database

/-- The heap of `b` extends the heap of `a`: no buffer allocated in `a` has
been overwritten. -/
def heapExt (a b : GenState) : Prop :=
  a.size ≤ b.size ∧ ∀ i < a.size, b.heap i = a.heap i

theorem heapExt_refl (a : GenState) : heapExt a a :=
  ⟨Nat.le_refl _, fun _ _ => rfl⟩

theorem heapExt_trans {a b c : GenState} (hab : heapExt a b) (hbc : heapExt b c) :
    heapExt a c :=
  ⟨Nat.le_trans hab.1 hbc.1,
   fun i hi => (hbc.2 i (Nat.lt_of_lt_of_le hi hab.1)).trans (hab.2 i hi)⟩

theorem setKeyInDoc_heapExt (env : GenEnv) (st : GenState) (field : SchemaField)
    (jsonVal : List Byte) : heapExt st (setKeyInDoc env st field jsonVal).2 := by
  rw [setKeyInDoc]
  cases hset : env.jsonSet (st.heap st.docAddr)
      (getJsonQuotedValue field.type jsonVal) field.fieldName with
  | error e =>
    refine ⟨?_, ?_⟩
    · show st.size ≤ st.size + 1
      omega
    · intro i hi
      show (if i = st.size then st.heap st.docAddr else st.heap i) = st.heap i
      rw [if_neg (by omega : ¬ i = st.size)]
  | ok res =>
    refine ⟨?_, ?_⟩
    · show st.size ≤ st.size + 1
      omega
    · intro i hi
      show (if i = st.size then res
            else if i = st.size then st.heap st.docAddr else st.heap i) = st.heap i
      rw [if_neg (by omega : ¬ i = st.size), if_neg (by omega : ¬ i = st.size)]

theorem generateLoop_heapExt (env : GenEnv) :
    ∀ (fields : List SchemaField) (step : Nat) (st : GenState)
      (acc : List ScalarValue),
      heapExt st (generateLoop env fields step st acc).2 := by
  intro fields
  induction fields with
  | nil => intro step st acc; exact heapExt_refl st
  | cons field rest ih =>
    intro step st acc
    rw [generateLoop]
    split
    · exact heapExt_refl st
    · split
      · cases hgv : env.genVal step field with
        | error e => exact heapExt_refl st
        | ok p =>
          obtain ⟨jv, v⟩ := p
          show heapExt st
            (match setKeyInDoc env st field jv with
             | (Except.error e, st1) => (Except.error e, st1)
             | (Except.ok _, st1) =>
               generateLoop env rest (step + 1)
                 (addKeyToResp
                   (if field.type = FieldType.int64Type ∨
                       field.type = FieldType.dateTimeType
                    then { st1 with forceInsert := true } else st1) field jv)
                 (acc ++ [v])).2
          cases hset : setKeyInDoc env st field jv with
          | mk r st1 =>
            have hp : heapExt st st1 := by
              have hx := setKeyInDoc_heapExt env st field jv
              rw [hset] at hx
              exact hx
            cases r with
            | error e => exact hp
            | ok u =>
              refine heapExt_trans hp (heapExt_trans ?_
                (ih (step + 1)
                  (addKeyToResp
                    (if field.type = FieldType.int64Type ∨
                        field.type = FieldType.dateTimeType
                     then { st1 with forceInsert := true } else st1) field jv)
                  (acc ++ [v])))
              split
              · exact ⟨Nat.le_refl _, fun i hi => rfl⟩
              · exact ⟨Nat.le_refl _, fun i hi => rfl⟩
      · cases hnv : env.newValue field.type
            (env.jsonGet (st.heap st.docAddr) field.fieldName).1 with
        | error e => exact heapExt_refl st
        | ok v =>
          exact ih (step + 1)
            (addKeyToResp st field
              (env.jsonGet (st.heap st.docAddr) field.fieldName).1) (acc ++ [v])

theorem generate_heapExt (env : GenEnv) (index : List SchemaField)
    (table : List Byte) (st : GenState) :
    heapExt st (generate env index table st).2 := by
  rw [generate]
  cases hgl : generateLoop env index 0 st [] with
  | mk r st1 =>
    have hx := generateLoop_heapExt env index 0 st []
    rw [hgl] at hx
    cases r with
    | error e => exact hx
    | ok parts => exact hx

/-- C9: the key generator never mutates its input document — after
`generate` completes (successfully or not, with any number of
auto-generated fields), every buffer allocated before the run, in
particular the document passed to `newKeyGenerator`, holds its original
bytes; write-backs happen on freshly allocated copies. -/
theorem claim_C9_keygen_input_unmutated (env : GenEnv) (index : List SchemaField)
    (table : List Byte) (heap : Heap) (size docAddr : Nat) (i : Nat)
    (hi : i < size) :
    ((generate env index table (newKeyGenerator heap size docAddr)).2).heap i =
      heap i :=
  (generate_heapExt env index table (newKeyGenerator heap size docAddr)).2 i hi

/-- Witness for C9: generating an auto-generated `Int32` primary key leaves
the original document buffer (address 0) untouched. -/
theorem claim_C9_witness :
    ((generate
        ⟨fun _ _ => ([], JsonKind.notExist, false),
         fun _ v _ => Except.ok v,
         fun _ _ => Except.ok (strBytes "7", ScalarValue.int 7),
         fun _ _ => Except.ok ScalarValue.null⟩
        [⟨"id", FieldType.int32Type, true⟩] [9]
        (newKeyGenerator (fun _ => [100]) 1 0)).2).heap 0 = [100] :=
  claim_C9_keygen_input_unmutated
    ⟨fun _ _ => ([], JsonKind.notExist, false),
     fun _ v _ => Except.ok v,
     fun _ _ => Except.ok (strBytes "7", ScalarValue.int 7),
     fun _ _ => Except.ok ScalarValue.null⟩
    [⟨"id", FieldType.int32Type, true⟩] [9] (fun _ => [100]) 1 0 0 (by omega)

end KeyGen

end Tigris
